import Mathlib

/-!
Verification of `src/UberRiderParser.py` (repository `uberparser`).

Python strings are embedded as `List Char`; the Python string operations the
parser uses (`replace`, `split`, `strip`, `lstrip`, `find`, slicing) and the
`re.finditer` scan for the fixed-shape pattern `DD/DD/DD` are modelled as
executable Lean functions below.  Fallible Python operations (list index
assignment out of range, `list.index` on a missing value, `pd.to_datetime`,
`pd.to_numeric`) are modelled with `Option`/`Except`.
-/

namespace UberRiderParser

/-- Python strings, embedded as lists of characters. -/
abbrev Str := List Char

/-- `startsWithPat pat s`: `pat` is a prefix of `s` (character-wise). -/
def startsWithPat : Str → Str → Bool
  | [], _ => true
  | _ :: _, [] => false
  | p :: ps, c :: cs => p == c && startsWithPat ps cs

/-- Model of Python `s.find(pat) != -1`: `pat` occurs as a contiguous
substring of `s`. -/
def hasSub (pat : Str) : Str → Bool
  | [] => startsWithPat pat []
  | c :: rest => startsWithPat pat (c :: rest) || hasSub pat rest

/-- Worker for `pyReplace`: replace every (left-to-right, non-overlapping)
occurrence of the non-empty pattern `o :: os` by `new`.  When the pattern
matches at the current head, `new` is emitted, the head is consumed, and the
`skip` counter suppresses the remaining `os.length` matched characters
(equivalent to continuing after the whole match, but structurally
recursive). -/
def replaceAux (o : Char) (os new : Str) : Str → Nat → Str
  | [], _ => []
  | _ :: rest, skip + 1 => replaceAux o os new rest skip
  | c :: rest, 0 =>
    if startsWithPat (o :: os) (c :: rest) then
      new ++ replaceAux o os new rest os.length
    else
      c :: replaceAux o os new rest 0

/-- Model of Python `s.replace(old, new)` for a non-empty `old` (the parser
only ever replaces non-empty text).  For `old = []` Python would interleave
`new` everywhere; that case never occurs and is modelled as the identity. -/
def pyReplace (s old new : Str) : Str :=
  match old with
  | [] => s
  | o :: os => replaceAux o os new s 0

/-- Python whitespace characters relevant to `str.strip`/`str.lstrip`. -/
def isPyWs (c : Char) : Bool :=
  c == ' ' || c == '\t' || c == '\n' || c == '\x0d' || c == '\x0b' || c == '\x0c'

/-- Model of Python `s.lstrip()`. -/
def pyLstrip (s : Str) : Str := s.dropWhile isPyWs

/-- Model of Python `s.strip()`. -/
def pyStrip (s : Str) : Str := ((s.dropWhile isPyWs).reverse.dropWhile isPyWs).reverse

/-- Model of Python `s.split(sep)` for a one-character separator: split on
every occurrence, keeping empty pieces; `''.split(sep) == ['']`. -/
def pySplitChar (sep : Char) : Str → List Str
  | [] => [[]]
  | c :: rest =>
    if c == sep then [] :: pySplitChar sep rest
    else
      match pySplitChar sep rest with
      | [] => [[c]]
      | t :: ts => (c :: t) :: ts

/-- Worker for `splitLinesKeep`: accumulate the current line (reversed). -/
def linesAux (acc : Str) : Str → List Str
  | [] => if acc.isEmpty then [] else [acc.reverse]
  | c :: rest =>
    if c == '\n' then (acc.reverse ++ [c]) :: linesAux [] rest
    else linesAux (c :: acc) rest

/-- Model of Python `f.readlines()` on the file's content: split into lines,
each keeping its trailing newline. -/
def splitLinesKeep (s : Str) : List Str := linesAux [] s

/-- The regex `[0-9][0-9]/[0-9][0-9]/[0-9][0-9]` matched against the start of
the string. -/
def matchesDateAt : Str → Bool
  | d1 :: d2 :: s1 :: d3 :: d4 :: s2 :: d5 :: d6 :: _ =>
    d1.isDigit && d2.isDigit && s1 == '/' && d3.isDigit && d4.isDigit &&
      s2 == '/' && d5.isDigit && d6.isDigit
  | _ => false

/-- Worker for `findStarts`: scan left to right; in normal mode (`skip = 0`)
a match of the 8-character date pattern at absolute position `i` emits `i`
and suppresses scanning inside the match (the next 7 characters), exactly as
`re.finditer` resumes after a non-overlapping match; otherwise scanning
advances one character. -/
def findStartsAux : Str → Nat → Nat → List Nat
  | [], _, _ => []
  | _ :: rest, i, skip + 1 => findStartsAux rest (i + 1) skip
  | c :: rest, i, 0 =>
    if matchesDateAt (c :: rest) then
      i :: findStartsAux rest (i + 1) 7
    else
      findStartsAux rest (i + 1) 0

/-- Model of `re.finditer(date_pattern, s)`: the start positions of the
left-to-right, non-overlapping matches of the 8-character date pattern.
`i0` is the absolute position of the head of the remaining text. -/
def findStarts (s : Str) (i0 : Nat) : List Nat := findStartsAux s i0 0

/-- Consecutive pairs: Python
`[(begins[i], begins[i+1]) for i in range(0, len(begins)-1)]`. -/
def segLimits : List Nat → List (Nat × Nat)
  | [] => []
  | [_] => []
  | a :: b :: rest => (a, b) :: segLimits (b :: rest)

/-- `UberRiderParser._split_by_pattern` specialised to the date pattern:
start positions of the matches, a dummy end bound `len(string)`, then the
slices `string[begin:end]`. -/
def splitByPattern (s : Str) : List Str :=
  let begins := findStarts s 0 ++ [s.length]
  (segLimits begins).map (fun p => (s.drop p.1).take (p.2 - p.1))

/-- The base columns declared in `UberRiderParser.__init__`. -/
def baseColumns : List Str :=
  ["date", "driver", "fare", "ride_type", "city", "payment"].map String.toList

/-- Marker text of the fare-split notice. -/
def splitPat : Str := "You split this fare with".toList

/-- Marker text of the requested-by notice. -/
def reqPat : Str := "This trip was requested by".toList

/-- Marker (and exact literal) of the cancellation notice. -/
def cancelTxt : Str := "Canceled".toList

/-- `optional_cols` of `_read_file_as_list_of_lists`:
`(text pattern to identify the value, column name to add)` pairs, in the
declared processing order. -/
def optionalCols : List (Str × Str) :=
  [(splitPat, "split_with".toList),
   (reqPat, "requested_by".toList),
   (cancelTxt, "canceled".toList)]

/-- The slot column names, in declaration order. -/
def slotNames : List Str := optionalCols.map Prod.snd

/-- `self.columns` after the `self.columns += [elem[1] for elem in
optional_cols]` mutation of the first call to
`_read_file_as_list_of_lists`. -/
def allColumns : List Str := baseColumns ++ slotNames

/-- `self.columns` as a function of how many times
`_read_file_as_list_of_lists` has been called on the same parser instance:
each call executes `self.columns += [elem[1] for elem in optional_cols]`
once, on top of the base columns set by `__init__`. -/
def columnsAfterCalls : Nat → List Str
  | 0 => baseColumns
  | n + 1 => columnsAfterCalls n ++ slotNames

/-- `UberRiderParser._handle_optional_column`.  The Python body computes
`search_results = [col.find(text_pattern) for col in line]`, counts the hits,
and either inserts `''` (count ≠ 1) or moves the unique hit
(`del line[index]`) — in both branches finally executing
`line[self.columns.index(col_name)] = text_to_insert`, which raises
`IndexError` (modelled by `none`) when the index is out of range;
`self.columns.index` raises `ValueError` (also `none`) when `col_name` is
missing. -/
def handleOptionalColumn (columns line : List Str) (pat colName : Str) :
    Option (List Str) :=
  match columns.findIdx? (fun y => y == colName) with
  | none => none
  | some k =>
    if line.countP (fun t => hasSub pat t) = 1 then
      let i := line.findIdx (fun t => hasSub pat t)
      let text := line.getD i []
      let line' := line.eraseIdx i
      if k < line'.length then some (line'.set k text) else none
    else
      if k < line.length then some (line.set k []) else none

/-- Option-valued map, modelling a Python `for` loop whose body can raise:
the first raising element aborts the whole loop. -/
def mapOpt (f : α → Option β) : List α → Option (List β)
  | [] => some []
  | a :: l =>
    match f a with
    | none => none
    | some b => (mapOpt f l).map (fun bs => b :: bs)

/-- One extractor pass (`for line in lines: line = self._handle_optional_column
(line, pattern, col_name)`) for a single `(pattern, col_name)` pair. -/
def applyPass (columns : List Str) (pat colName : Str)
    (rows : List (List Str)) : Option (List (List Str)) :=
  mapOpt (fun row => handleOptionalColumn columns row pat colName) rows

/-- The three extractor passes, in the declared order
`split_with`, `requested_by`, `canceled`. -/
def runPasses (rows : List (List Str)) : Option (List (List Str)) :=
  (applyPass allColumns splitPat ("split_with".toList) rows).bind fun r1 =>
    (applyPass allColumns reqPat ("requested_by".toList) r1).bind fun r2 =>
      applyPass allColumns cancelTxt ("canceled".toList) r2

/-- The string-level preprocessing of `_read_file_as_list_of_lists`:
`readlines`, `lstrip` of every line, `join`, `replace('\n', '\t')`,
`replace('  ', ' ')`. -/
def preprocess (content : Str) : Str :=
  let joined := ((splitLinesKeep content).map pyLstrip).flatten
  let tabbed := pyReplace joined ['\n'] ['\t']
  pyReplace tabbed [' ', ' '] [' ']

/-- The token rows of `_read_file_as_list_of_lists` just before the extractor
passes: split by the date pattern, `strip`, split on tabs, and pad each row
with `[''] * len(optional_cols)`. -/
def tokenRows (content : Str) : List (List Str) :=
  let recs := (splitByPattern (preprocess content)).map pyStrip
  let rows := recs.map (pySplitChar '\t')
  rows.map (fun r => r ++ List.replicate optionalCols.length [])

/-- `UberRiderParser._read_file_as_list_of_lists`, with the file's raw
content passed in place of the file read. -/
def readFileAsListOfLists (content : Str) : Option (List (List Str)) :=
  runPasses (tokenRows content)

/-- The digit value of a decimal digit character. -/
def charDigit (c : Char) : Nat := c.toNat - '0'.toNat

/-- Gregorian leap year. -/
def isLeapYear (y : Nat) : Bool :=
  (y % 4 == 0 && y % 100 != 0) || (y % 400 == 0)

/-- Days in a month. -/
def daysInMonth (y m : Nat) : Nat :=
  if m = 2 then (if isLeapYear y then 29 else 28)
  else if m = 4 || m = 6 || m = 9 || m = 11 then 30
  else 31

/-- Two-digit-year pivot used by date inference: `00`–`68` map to the 2000s,
`69`–`99` to the 1900s. -/
def yearOfYY (yy : Nat) : Nat := if yy ≤ 68 then 2000 + yy else 1900 + yy

/-- Model of `pandas.to_datetime(..., infer_datetime_format=True)` restricted
to the 8-character `DD/DD/DD` tokens this parser feeds it (every record
starts at a regex match of that shape): month-first `MM/DD/YY`
interpretation, falling back to day-first when the month-first reading is
not a valid calendar date; anything else is unparseable (`none`, which the
pipeline treats as a raised `ParseError`).  A date is `(year, month, day)`. -/
def pdToDatetime : Str → Option (Nat × Nat × Nat)
  | [a, b, s1, c, d, s2, e, f] =>
    if a.isDigit && b.isDigit && s1 == '/' && c.isDigit && d.isDigit &&
        s2 == '/' && e.isDigit && f.isDigit then
      let mm := 10 * charDigit a + charDigit b
      let dd := 10 * charDigit c + charDigit d
      let y := yearOfYY (10 * charDigit e + charDigit f)
      if 1 ≤ mm && mm ≤ 12 && 1 ≤ dd && dd ≤ daysInMonth y mm then
        some (y, mm, dd)
      else if 1 ≤ dd && dd ≤ 12 && 1 ≤ mm && mm ≤ daysInMonth y dd then
        some (y, dd, mm)
      else none
    else none
  | _ => none

/-- `s` consists of decimal digits only. -/
def allDigits (s : Str) : Bool := s.all Char.isDigit

/-- Numeric value of a digit string. -/
def digitsToNat (s : Str) : Nat := s.foldl (fun acc c => 10 * acc + charDigit c) 0

/-- Model of `pandas.to_numeric` on a single string cell (default
`errors='raise'`, modelled by `none`): optional surrounding whitespace,
optional sign, then digits with at most one decimal point and at least one
digit. -/
def toNumeric (s : Str) : Option ℚ :=
  let t := pyStrip s
  let (sgn, t') : Int × Str :=
    match t with
    | '-' :: r => (-1, r)
    | '+' :: r => (1, r)
    | _ => (1, t)
  match pySplitChar '.' t' with
  | [ip] =>
    if allDigits ip && !ip.isEmpty then
      some (Rat.divInt (sgn * digitsToNat ip) 1)
    else none
  | [ip, fp] =>
    if allDigits ip && allDigits fp && !(ip.isEmpty && fp.isEmpty) then
      some (Rat.divInt (sgn * (digitsToNat ip * 10 ^ fp.length + digitsToNat fp))
        (10 ^ fp.length))
    else none
  | _ => none

/-- The part of the raw fare cell before the first `'$'`
(`x.split('$', 1)[0]`). -/
def beforeDollar (x : Str) : Str := x.takeWhile (fun c => c != '$')

/-- The part of the raw fare cell after the first `'$'`
(`x.split('$', 1)[1]`). -/
def afterDollar (x : Str) : Str := (x.dropWhile (fun c => c != '$')).drop 1

/-- The `currency` column: `x.split('$', 1)[0]` when `'$' in x`, else `None`;
followed by `x.replace(' ', '')` on the non-`None` values. -/
def currencyOf (x : Str) : Option Str :=
  if hasSub ['$'] x then some (pyReplace (beforeDollar x) [' '] []) else none

/-- The `fare` column cell after the `zip(*df['fare'].apply(...))` stage and
the final `pd.to_numeric`: the text after the first `'$'` parsed as a number
when `'$' in x` (raising — `none` — when not numeric), the float `0.0`
otherwise. -/
def fareCellOf (x : Str) : Option ℚ :=
  if hasSub ['$'] x then toNumeric (afterDollar x) else some 0

/-- The `canceled` column: `True if x == 'Canceled' else False`. -/
def canceledOf (x : Str) : Bool := x == cancelTxt

/-- The `split_with` column:
`x.replace('You split this fare with ', '') if 'split this' in x else None`. -/
def splitWithOf (x : Str) : Option Str :=
  if hasSub ("split this".toList) x then
    some (pyReplace x ("You split this fare with ".toList) [])
  else none

/-- The `requested_by` column:
`x.replace('This trip was requested by ', '') if 'requested by' in x else
None`. -/
def requestedByOf (x : Str) : Option Str :=
  if hasSub ("requested by".toList) x then
    some (pyReplace x ("This trip was requested by ".toList) [])
  else none

/-- The final entity emitted by `as_df`, one per record, in the projected
column order.  A date is `(year, month, day)`. -/
structure Ride where
  date : Nat × Nat × Nat
  driver : Str
  ride_type : Str
  city : Str
  payment : Str
  split_with : Option Str
  requested_by : Option Str
  canceled : Bool
  currency : Option Str
  fare : ℚ
deriving DecidableEq

/-- The error outcomes of `as_df`:
an `IndexError`/`ValueError` inside the extractor, a shape mismatch when
assigning `df.columns`, a date `ParseError` from `pd.to_datetime`, or a
`ValueError` from the final `pd.to_numeric`. -/
inductive PErr where
  | indexErr
  | shapeErr
  | dateErr
  | numErr
deriving DecidableEq

/-- Normalization of one fixed-width row
`[date, driver, fare, ride_type, city, payment, split_with, requested_by,
canceled]` into a `Ride`, failing exactly when the date or the numeric fare
conversion fails. -/
def rideOfRow (r : List Str) : Option Ride :=
  match pdToDatetime (r.getD 0 []) with
  | none => none
  | some d =>
    match fareCellOf (r.getD 2 []) with
    | none => none
    | some q =>
      some { date := d
             driver := r.getD 1 []
             ride_type := r.getD 3 []
             city := r.getD 4 []
             payment := r.getD 5 []
             split_with := splitWithOf (r.getD 6 [])
             requested_by := requestedByOf (r.getD 7 [])
             canceled := canceledOf (r.getD 8 [])
             currency := currencyOf (r.getD 2 [])
             fare := q }

/-- `UberRiderParser.as_df` on the raw file content.  The `DataFrame`
construction plus `df.columns = self.columns` requires a non-empty table
whose rows all have exactly `len(self.columns) = 9` cells (otherwise pandas
raises, modelled by `shapeErr`); `pd.to_datetime` then converts every date
cell (a failure anywhere raises before any later stage), the remaining
column conversions are total, and the final `pd.to_numeric` converts every
fare cell. -/
def asDf (content : Str) : Except PErr (List Ride) :=
  match readFileAsListOfLists content with
  | none => .error .indexErr
  | some rows =>
    if rows.isEmpty || !(rows.all (fun r => r.length == 9)) then
      .error .shapeErr
    else
      match mapOpt (fun r => pdToDatetime (r.getD 0 [])) rows with
      | none => .error .dateErr
      | some _ =>
        match mapOpt rideOfRow rows with
        | none => .error .numErr
        | some rides => .ok rides

/-! ### Helper lemmas -/

theorem hasSub_nil_left (x : Str) : hasSub [] x = true := by
  cases x <;> simp [hasSub, startsWithPat]

theorem hasSub_nil_right (pat : Str) (h : pat ≠ []) : hasSub pat [] = false := by
  cases pat with
  | nil => exact absurd rfl h
  | cons p ps => rfl

theorem hasSub_singleton (c : Char) (x : Str) : hasSub [c] x = true ↔ c ∈ x := by
  induction x with
  | nil => simp [hasSub, startsWithPat]
  | cons a t ih =>
    simp [hasSub, startsWithPat, ih, Bool.or_eq_true, Bool.and_eq_true,
      List.mem_cons, beq_iff_eq]

theorem getD_mem (l : List α) (k : Nat) (d : α) (h : k < l.length) :
    l.getD k d ∈ l := by
  induction l generalizing k with
  | nil => simp at h
  | cons a t ih =>
    cases k with
    | zero => simp [List.getD_cons_zero]
    | succ n =>
      rw [List.getD_cons_succ]
      exact List.mem_cons_of_mem a (ih n (by simpa using h))

theorem getD_set_self (l : List α) (k : Nat) (x d : α) (h : k < l.length) :
    (l.set k x).getD k d = x := by
  induction l generalizing k with
  | nil => simp at h
  | cons a t ih =>
    cases k with
    | zero => simp
    | succ n =>
      rw [List.set_cons_succ, List.getD_cons_succ]
      exact ih n (by simpa using h)

theorem getD_set_ne (l : List α) (j k : Nat) (x d : α) (h : j ≠ k) :
    (l.set k x).getD j d = l.getD j d := by
  induction l generalizing j k with
  | nil => simp [List.set]
  | cons a t ih =>
    cases k with
    | zero =>
      cases j with
      | zero => exact absurd rfl h
      | succ m => simp
    | succ n =>
      cases j with
      | zero => simp
      | succ m =>
        rw [List.set_cons_succ, List.getD_cons_succ, List.getD_cons_succ]
        exact ih m n (by omega)

theorem set_getD_self (l : List α) (k : Nat) (d : α) :
    l.set k (l.getD k d) = l := by
  induction l generalizing k with
  | nil => rfl
  | cons a t ih =>
    cases k with
    | zero => simp
    | succ n => rw [List.getD_cons_succ, List.set_cons_succ, ih]

theorem countP_one_unique (p : α → Bool) (l : List α) (d : α)
    (h : l.countP p = 1) :
    l.findIdx p < l.length ∧ p (l.getD (l.findIdx p) d) = true ∧
      ∀ j, j < l.length → p (l.getD j d) = true → j = l.findIdx p := by
  induction l with
  | nil => simp [List.countP_nil] at h
  | cons a t ih =>
    rw [List.countP_cons] at h
    by_cases hpa : p a = true
    · have ht : t.countP p = 0 := by simp only [hpa, if_true] at h; omega
      have hz : ∀ b ∈ t, ¬ p b = true := List.countP_eq_zero.mp ht
      have hfi : List.findIdx p (a :: t) = 0 := by
        rw [List.findIdx_cons, hpa, cond_true]
      rw [hfi]
      refine ⟨by simp, by simpa using hpa, ?_⟩
      intro j hj hpj
      cases j with
      | zero => rfl
      | succ n =>
        rw [List.getD_cons_succ] at hpj
        exact absurd hpj (hz _ (getD_mem t n d (by simpa using hj)))
    · have hpa' : p a = false := by simpa using hpa
      have ht : t.countP p = 1 := by simpa [hpa'] using h
      obtain ⟨h1, h2, h3⟩ := ih ht
      have hfi : List.findIdx p (a :: t) = List.findIdx p t + 1 := by
        rw [List.findIdx_cons, hpa', cond_false]
      rw [hfi]
      refine ⟨by simp only [List.length_cons]; omega, ?_, ?_⟩
      · rw [List.getD_cons_succ]; exact h2
      · intro j hj hpj
        cases j with
        | zero =>
          rw [List.getD_cons_zero] at hpj
          exact absurd hpj hpa
        | succ n =>
          rw [List.getD_cons_succ] at hpj
          have := h3 n (by simpa using hj) hpj
          omega

theorem mapOpt_eq_none_iff (f : α → Option β) (l : List α) :
    mapOpt f l = none ↔ ∃ a ∈ l, f a = none := by
  induction l with
  | nil => simp [mapOpt]
  | cons a t ih =>
    cases hfa : f a with
    | none => simp [mapOpt, hfa]
    | some b =>
      cases hmt : mapOpt f t with
      | none =>
        simp only [mapOpt, hfa, Option.map_none]
        simp only [hmt, Option.map_none]
        constructor
        · intro _
          obtain ⟨x, hx, hfx⟩ := ih.mp hmt
          exact ⟨x, List.mem_cons_of_mem a hx, hfx⟩
        · intro _; rfl
      | some bs =>
        simp only [mapOpt, hfa, hmt, Option.map_some]
        constructor
        · intro hcontra; exact absurd hcontra (by simp)
        · rintro ⟨x, hx, hfx⟩
          rcases List.mem_cons.mp hx with rfl | hx'
          · rw [hfx] at hfa; exact absurd hfa (by simp)
          · have : mapOpt f t = none := ih.mpr ⟨x, hx', hfx⟩
            rw [this] at hmt; exact absurd hmt (by simp)

theorem mapOpt_isSome (f : α → Option β) (l : List α)
    (h : ∀ a ∈ l, f a ≠ none) : ∃ bs, mapOpt f l = some bs := by
  cases hm : mapOpt f l with
  | none =>
    obtain ⟨a, ha, hfa⟩ := (mapOpt_eq_none_iff f l).mp hm
    exact absurd hfa (h a ha)
  | some bs => exact ⟨bs, rfl⟩

theorem segLimits_length (l : List Nat) :
    (segLimits l).length = l.length - 1 := by
  induction l with
  | nil => rfl
  | cons a t ih =>
    cases t with
    | nil => rfl
    | cons b r =>
      simp only [segLimits, List.length_cons] at ih ⊢
      omega

theorem segLimits_getElem? (l : List Nat) (i a b : Nat)
    (ha : l[i]? = some a) (hb : l[i + 1]? = some b) :
    (segLimits l)[i]? = some (a, b) := by
  induction l generalizing i with
  | nil => simp at ha
  | cons x t ih =>
    cases t with
    | nil =>
      cases i with
      | zero => simp at hb
      | succ n => simp at ha
    | cons y r =>
      cases i with
      | zero =>
        simp only [List.getElem?_cons_zero, Option.some.injEq] at ha
        simp only [List.getElem?_cons_succ, List.getElem?_cons_zero,
          Option.some.injEq] at hb
        subst ha; subst hb
        simp [segLimits]
      | succ n =>
        rw [List.getElem?_cons_succ] at ha hb
        have := ih n ha hb
        simpa [segLimits] using this

theorem findStartsAux_mem (t : Str) (i0 skip a : Nat)
    (h : a ∈ findStartsAux t i0 skip) :
    ∃ k, a = i0 + k ∧ matchesDateAt (t.drop k) = true := by
  induction t generalizing i0 skip with
  | nil => simp [findStartsAux] at h
  | cons c rest ih =>
    have hstep : ∀ k', matchesDateAt (rest.drop k') = true →
        matchesDateAt (List.drop (1 + k') (c :: rest)) = true := by
      intro k' hm
      rwa [Nat.add_comm, List.drop_succ_cons]
    cases skip with
    | succ m =>
      simp only [findStartsAux] at h
      obtain ⟨k', hk', hm⟩ := ih (i0 + 1) m h
      exact ⟨1 + k', by omega, hstep k' hm⟩
    | zero =>
      simp only [findStartsAux] at h
      by_cases hm : matchesDateAt (c :: rest) = true
      · rw [if_pos hm] at h
        rcases List.mem_cons.mp h with rfl | h2
        · exact ⟨0, by omega, by simpa using hm⟩
        · obtain ⟨k', hk', hm'⟩ := ih (i0 + 1) 7 h2
          exact ⟨1 + k', by omega, hstep k' hm'⟩
      · rw [if_neg hm] at h
        obtain ⟨k', hk', hm'⟩ := ih (i0 + 1) 0 h
        exact ⟨1 + k', by omega, hstep k' hm'⟩

theorem findStarts_mem (t : Str) (i0 a : Nat) (h : a ∈ findStarts t i0) :
    ∃ k, a = i0 + k ∧ matchesDateAt (t.drop k) = true :=
  findStartsAux_mem t i0 0 a h

theorem dropWhile_dollar (x : Str) (h : '$' ∈ x) :
    x.dropWhile (fun c => c != '$') = '$' :: afterDollar x := by
  induction x with
  | nil => simp at h
  | cons a t ih =>
    by_cases ha : a = '$'
    · subst ha
      have hdw : List.dropWhile (fun c => c != '$') ('$' :: t) = '$' :: t := by
        simp [List.dropWhile]
      unfold afterDollar
      rw [hdw]
      rfl
    · have ht : '$' ∈ t := by
        rcases List.mem_cons.mp h with h' | h'
        · exact absurd h'.symm ha
        · exact h'
      have hpa : ((a != '$') : Bool) = true := by simpa using ha
      have hdw : List.dropWhile (fun c => c != '$') (a :: t) =
          List.dropWhile (fun c => c != '$') t := by
        simp [List.dropWhile, hpa]
      have hAfter : afterDollar (a :: t) = afterDollar t := by
        unfold afterDollar
        rw [hdw]
      rw [hdw, hAfter]
      exact ih ht

/-! ### Claim theorems -/

/-- **C4** (confirmed).  For every raw fare token: if it contains `'$'`, the
token decomposes as the text before the first `'$'` followed by `'$'`
followed by the text after it; `currency` is the before-part with its spaces
stripped and `fare` is the after-part handed to the decimal parse.  If it
contains no `'$'`, `currency` is `None` and `fare` is the float `0.0`. -/
theorem C4_fare_split (x : Str) :
    (hasSub ['$'] x = true →
       x = beforeDollar x ++ '$' :: afterDollar x ∧
       '$' ∉ beforeDollar x ∧
       currencyOf x = some (pyReplace (beforeDollar x) [' '] []) ∧
       fareCellOf x = toNumeric (afterDollar x)) ∧
    (hasSub ['$'] x = false →
       currencyOf x = none ∧ fareCellOf x = some 0) := by
  constructor
  · intro hd
    have hm : '$' ∈ x := (hasSub_singleton '$' x).mp hd
    refine ⟨?_, ?_, ?_, ?_⟩
    · conv_lhs => rw [← List.takeWhile_append_dropWhile (fun c => c != '$') x]
      rw [dropWhile_dollar x hm]
      rfl
    · intro hc
      have := List.mem_takeWhile_imp hc
      simp at this
    · unfold currencyOf
      rw [if_pos hd]
    · unfold fareCellOf
      rw [if_pos hd]
  · intro hd
    unfold currencyOf fareCellOf
    rw [if_neg (by simp [hd]), if_neg (by simp [hd])]
    exact ⟨rfl, rfl⟩

/-- Witness for C4: the spec's round-trip inputs.  `"USD$12.50"` decomposes
into currency `"USD"` and fare `12.5 = 25/2`; `"12.50"` (no `'$'`) gives
currency `None` and fare `0.0`. -/
theorem C4_witness :
    (("USD$12.50".toList = beforeDollar ("USD$12.50".toList) ++
        '$' :: afterDollar ("USD$12.50".toList) ∧
      '$' ∉ beforeDollar ("USD$12.50".toList) ∧
      currencyOf ("USD$12.50".toList) =
        some (pyReplace (beforeDollar ("USD$12.50".toList)) [' '] []) ∧
      fareCellOf ("USD$12.50".toList) = toNumeric (afterDollar ("USD$12.50".toList))) ∧
     currencyOf ("USD$12.50".toList) = some ("USD".toList) ∧
     fareCellOf ("USD$12.50".toList) = some (Rat.divInt 25 2)) ∧
    (currencyOf ("12.50".toList) = none ∧ fareCellOf ("12.50".toList) = some 0) :=
  ⟨⟨(C4_fare_split ("USD$12.50".toList)).1 (by decide), by decide, by decide⟩,
   (C4_fare_split ("12.50".toList)).2 (by decide)⟩

/-- **C5** (corrected): counterexample.  On the input `"hello"`, which
contains zero matches of the date pattern, `_split_by_pattern` returns the
empty list of records — not the entire input as a single record as the
claim states. -/
theorem C5_cex :
    findStarts ("hello".toList) 0 = [] ∧
    splitByPattern ("hello".toList) = [] ∧
    splitByPattern ("hello".toList) ≠ ["hello".toList] := by decide

/-- **C5** (amended).  When the input text contains zero occurrences of the
`DD/DD/DD` pattern, segmentation returns zero records (the empty list) —
and no error is raised. -/
theorem C5_zero_matches (s : Str) (h : findStarts s 0 = []) :
    splitByPattern s = [] := by
  unfold splitByPattern
  rw [h]
  rfl

/-- Witness for C5 at the dateless input `"no dates here"`. -/
theorem C5_witness : splitByPattern ("no dates here".toList) = [] :=
  C5_zero_matches ("no dates here".toList) (by decide)

/-- **C6** (confirmed).  For every row normalized into a `Ride`, the
`canceled` field is `true` iff the text in the canceled slot (cell 8)
exactly equals the literal `'Canceled'`; it is `false` in every other case,
including the empty slot. -/
theorem C6_canceled_iff (r : List Str) (ride : Ride)
    (h : rideOfRow r = some ride) :
    ride.canceled = true ↔ r.getD 8 [] = cancelTxt := by
  unfold rideOfRow at h
  cases hd : pdToDatetime (r.getD 0 []) with
  | none => rw [hd] at h; exact absurd h (by simp)
  | some d =>
    rw [hd] at h
    cases hf : fareCellOf (r.getD 2 []) with
    | none => rw [hf] at h; exact absurd h (by simp)
    | some q =>
      rw [hf] at h
      have he := Option.some.inj h
      rw [← he]
      show canceledOf (r.getD 8 []) = true ↔ r.getD 8 [] = cancelTxt
      unfold canceledOf
      exact beq_iff_eq

/-- Witness for C6: a row whose canceled slot holds exactly `'Canceled'`
yields `canceled = true`. -/
theorem C6_witness :
    (({ date := (2018, 1, 2), driver := "D".toList, ride_type := "X".toList,
        city := "SF".toList, payment := "V".toList, split_with := none,
        requested_by := none, canceled := true, currency := some [],
        fare := 1 } : Ride).canceled = true ↔
      (["01/02/18", "D", "$1.00", "X", "SF", "V", "", "", "Canceled"].map
          String.toList).getD 8 [] = cancelTxt) :=
  C6_canceled_iff
    (["01/02/18", "D", "$1.00", "X", "SF", "V", "", "", "Canceled"].map
      String.toList)
    { date := (2018, 1, 2), driver := "D".toList, ride_type := "X".toList,
      city := "SF".toList, payment := "V".toList, split_with := none,
      requested_by := none, canceled := true, currency := some [], fare := 1 }
    (by decide)

/-- **C9** (corrected): counterexample.  The slot names are appended by
`_read_file_as_list_of_lists`, i.e. once per parse call, not once per
parser instance: after a second call the column list has 12 entries and
differs from the column list after the first call. -/
theorem C9_cex :
    (columnsAfterCalls 2).length = 12 ∧
    columnsAfterCalls 2 ≠ columnsAfterCalls 1 := by decide

/-- **C9** (amended).  The three slot column names are appended to the
parser's column set exactly once per call of
`_read_file_as_list_of_lists` (hence once per `as_df` call), on top of the
six base columns; after the first (single) parse the column set is exactly
the fixed nine columns. -/
theorem C9_columns_per_call (n : Nat) :
    columnsAfterCalls (n + 1) = columnsAfterCalls n ++ slotNames ∧
    (columnsAfterCalls n).length = 6 + 3 * n ∧
    columnsAfterCalls 1 = allColumns := by
  refine ⟨rfl, ?_, rfl⟩
  induction n with
  | zero => rfl
  | succ m ih =>
    have hs : slotNames.length = 3 := rfl
    show (columnsAfterCalls m ++ slotNames).length = 6 + 3 * (m + 1)
    rw [List.length_append, ih, hs]
    omega

/-- **C1** (corrected): counterexample.  A row with seven positional tokens
(as produced for a ride with one extra token, e.g. a cancellation notice)
plus the three padding cells: the split-with marker occurs in zero tokens,
yet the pass does not leave the positional tokens unchanged — the token
`"g"` at the slot's column index 6 is overwritten with the empty string. -/
theorem C1_cex :
    (["a", "b", "c", "d", "e", "f", "g", "", "", ""].map String.toList).countP
        (fun t => hasSub splitPat t) = 0 ∧
    handleOptionalColumn allColumns
        (["a", "b", "c", "d", "e", "f", "g", "", "", ""].map String.toList)
        splitPat ("split_with".toList) =
      some (["a", "b", "c", "d", "e", "f", "", "", "", ""].map String.toList) ∧
    (["a", "b", "c", "d", "e", "f", "", "", "", ""].map String.toList) ≠
      (["a", "b", "c", "d", "e", "f", "g", "", "", ""].map String.toList) := by
  decide

/-- **C1** (amended).  For every row and (marker, slot) pair whose slot
column index `k` is in range: if the marker occurs in zero tokens or in more
than one token, no token is removed and the cell at index `k` is overwritten
with the empty string, every other cell being left unchanged (so the
positional tokens are unchanged exactly when the cell at index `k` is
already an empty padding cell, as in the standard padded row); if the
marker occurs in exactly one token (and the shrunken row still covers index
`k`), that token is removed from the sequence and its full original text is
stored at index `k`. -/
theorem C1_extractor (line : List Str) (pat colName : Str) (k : Nat)
    (hk : allColumns.findIdx? (fun y => y == colName) = some k)
    (hkl : k < line.length) :
    (line.countP (fun t => hasSub pat t) ≠ 1 →
       ∃ l', handleOptionalColumn allColumns line pat colName = some l' ∧
         l'.length = line.length ∧ l'.getD k [] = [] ∧
         ∀ j, j ≠ k → l'.getD j [] = line.getD j []) ∧
    (line.countP (fun t => hasSub pat t) = 1 → k + 1 < line.length →
       ∃ i l', i < line.length ∧ hasSub pat (line.getD i []) = true ∧
         (∀ j, j < line.length → hasSub pat (line.getD j []) = true → j = i) ∧
         handleOptionalColumn allColumns line pat colName = some l' ∧
         l'.length + 1 = line.length ∧ l'.getD k [] = line.getD i []) := by
  constructor
  · intro hcnt
    refine ⟨line.set k [], ?_, List.length_set line k [],
      getD_set_self line k [] [] hkl,
      fun j hj => getD_set_ne line j k [] [] hj⟩
    simp only [handleOptionalColumn, hk]
    rw [if_neg hcnt, if_pos hkl]
  · intro hcnt hk1
    obtain ⟨h1, h2, h3⟩ :=
      countP_one_unique (fun t => hasSub pat t) line [] hcnt
    have hlen : (line.eraseIdx (line.findIdx (fun t => hasSub pat t))).length =
        line.length - 1 := by
      rw [List.length_eraseIdx, if_pos h1]
    have hkl' : k < (line.eraseIdx
        (line.findIdx (fun t => hasSub pat t))).length := by
      rw [hlen]; omega
    refine ⟨line.findIdx (fun t => hasSub pat t),
      (line.eraseIdx (line.findIdx (fun t => hasSub pat t))).set k
        (line.getD (line.findIdx (fun t => hasSub pat t)) []),
      h1, h2, h3, ?_, ?_, ?_⟩
    · simp only [handleOptionalColumn, hk, if_pos hcnt]
      rw [if_pos hkl']
    · rw [List.length_set, hlen]; omega
    · exact getD_set_self _ k _ [] hkl'

/-- Witness for C1 at concrete rows: the standard padded 9-cell row with no
marker (zero-occurrence case, slot index 6), and a 10-cell row whose token 6
uniquely contains the split-with marker (unique-occurrence case). -/
theorem C1_witness :
    (∃ l', handleOptionalColumn allColumns
        (["01/02/18", "John", "$5.00", "UberX", "SF", "Visa", "", "", ""].map
          String.toList) splitPat ("split_with".toList) = some l' ∧
      l'.length = (["01/02/18", "John", "$5.00", "UberX", "SF", "Visa", "", "",
          ""].map String.toList).length ∧
      l'.getD 6 [] = [] ∧
      ∀ j, j ≠ 6 → l'.getD j [] =
        (["01/02/18", "John", "$5.00", "UberX", "SF", "Visa", "", "", ""].map
          String.toList).getD j []) ∧
    (∃ i l',
      i < (["01/02/18", "John", "$5.00", "UberX", "SF", "Visa",
          "You split this fare with Jane", "", "", ""].map String.toList).length ∧
      hasSub splitPat ((["01/02/18", "John", "$5.00", "UberX", "SF", "Visa",
          "You split this fare with Jane", "", "", ""].map String.toList).getD
            i []) = true ∧
      (∀ j, j < (["01/02/18", "John", "$5.00", "UberX", "SF", "Visa",
          "You split this fare with Jane", "", "", ""].map String.toList).length →
        hasSub splitPat ((["01/02/18", "John", "$5.00", "UberX", "SF", "Visa",
          "You split this fare with Jane", "", "", ""].map String.toList).getD
            j []) = true → j = i) ∧
      handleOptionalColumn allColumns
        (["01/02/18", "John", "$5.00", "UberX", "SF", "Visa",
          "You split this fare with Jane", "", "", ""].map String.toList)
        splitPat ("split_with".toList) = some l' ∧
      l'.length + 1 = (["01/02/18", "John", "$5.00", "UberX", "SF", "Visa",
          "You split this fare with Jane", "", "", ""].map String.toList).length ∧
      l'.getD 6 [] = (["01/02/18", "John", "$5.00", "UberX", "SF", "Visa",
          "You split this fare with Jane", "", "", ""].map String.toList).getD
            i []) :=
  ⟨(C1_extractor
      (["01/02/18", "John", "$5.00", "UberX", "SF", "Visa", "", "", ""].map
        String.toList) splitPat ("split_with".toList) 6 (by decide)
      (by decide)).1 (by decide),
   (C1_extractor
      (["01/02/18", "John", "$5.00", "UberX", "SF", "Visa",
        "You split this fare with Jane", "", "", ""].map String.toList)
      splitPat ("split_with".toList) 6 (by decide) (by decide)).2 (by decide)
      (by decide)⟩

/-- **C7** (corrected): counterexample.  A 10-cell row in none of whose
elements the cancellation marker occurs: the canceled pass does not leave
the row unchanged — it overwrites the element `"x"` at the slot's column
index 8 with the empty string. -/
theorem C7_cex :
    (["p", "q", "r", "s", "t", "u", "v", "w", "x", "y"].map String.toList).countP
        (fun t => hasSub cancelTxt t) = 0 ∧
    handleOptionalColumn allColumns
        (["p", "q", "r", "s", "t", "u", "v", "w", "x", "y"].map String.toList)
        cancelTxt ("canceled".toList) ≠
      some (["p", "q", "r", "s", "t", "u", "v", "w", "x", "y"].map
        String.toList) := by decide

/-- **C7** (amended).  Running the pass for a marker absent from every
element overwrites the element at the slot's column index with the empty
string and leaves every other element unchanged; it therefore leaves the
row unchanged exactly when that element is already the empty string (the
standard padded shape), and in all cases re-running the pass is idempotent. -/
theorem C7_absent_marker (line : List Str) (pat colName : Str) (k : Nat)
    (hk : allColumns.findIdx? (fun y => y == colName) = some k)
    (hkl : k < line.length)
    (h0 : line.countP (fun t => hasSub pat t) = 0) :
    handleOptionalColumn allColumns line pat colName = some (line.set k []) ∧
    handleOptionalColumn allColumns (line.set k []) pat colName =
      some (line.set k []) ∧
    (line.getD k [] = [] →
      handleOptionalColumn allColumns line pat colName = some line) := by
  have hpat : pat ≠ [] := by
    intro hp
    subst hp
    have := List.countP_eq_zero.mp h0 (line.getD k []) (getD_mem line k [] hkl)
    rw [hasSub_nil_left] at this
    exact this rfl
  have h1 : handleOptionalColumn allColumns line pat colName =
      some (line.set k []) := by
    simp only [handleOptionalColumn, hk]
    rw [if_neg (by omega), if_pos hkl]
  have hset0 : (line.set k []).countP (fun t => hasSub pat t) = 0 := by
    apply List.countP_eq_zero.mpr
    intro a ha
    rcases List.mem_or_eq_of_mem_set ha with ha' | rfl
    · exact List.countP_eq_zero.mp h0 a ha'
    · simp [hasSub_nil_right pat hpat]
  have h2 : handleOptionalColumn allColumns (line.set k []) pat colName =
      some (line.set k []) := by
    simp only [handleOptionalColumn, hk]
    rw [if_neg (by omega), if_pos (by rw [List.length_set]; exact hkl),
      List.set_set]
  refine ⟨h1, h2, fun hE => ?_⟩
  have hself : line.set k [] = line := by
    conv_lhs => rw [← hE]
    exact set_getD_self line k []
  rw [h1, hself]

/-- Witness for C7: the canceled pass (slot index 8) on the standard padded
row with no cancellation marker. -/
theorem C7_witness :
    handleOptionalColumn allColumns
        (["03/04/18", "Ann", "$7.00", "UberX", "NY", "Amex", "", "", ""].map
          String.toList) cancelTxt ("canceled".toList) =
      some ((["03/04/18", "Ann", "$7.00", "UberX", "NY", "Amex", "", "", ""].map
        String.toList).set 8 []) ∧
    handleOptionalColumn allColumns
        ((["03/04/18", "Ann", "$7.00", "UberX", "NY", "Amex", "", "", ""].map
          String.toList).set 8 []) cancelTxt ("canceled".toList) =
      some ((["03/04/18", "Ann", "$7.00", "UberX", "NY", "Amex", "", "", ""].map
        String.toList).set 8 []) ∧
    ((["03/04/18", "Ann", "$7.00", "UberX", "NY", "Amex", "", "", ""].map
        String.toList).getD 8 [] = [] →
      handleOptionalColumn allColumns
          (["03/04/18", "Ann", "$7.00", "UberX", "NY", "Amex", "", "", ""].map
            String.toList) cancelTxt ("canceled".toList) =
        some (["03/04/18", "Ann", "$7.00", "UberX", "NY", "Amex", "", "", ""].map
          String.toList)) :=
  C7_absent_marker
    (["03/04/18", "Ann", "$7.00", "UberX", "NY", "Amex", "", "", ""].map
      String.toList) cancelTxt ("canceled".toList) 8 (by decide) (by decide)
    (by decide)

/-- **C2** (confirmed).  If the input text contains exactly `N`
(left-to-right, non-overlapping) matches of the `DD/DD/DD` date pattern,
segmentation produces exactly `N` records; the `i`-th record starts at the
`i`-th match position (where the date pattern indeed matches), runs up to —
exclusive of — the next match position, and the final record extends to the
end of the input. -/
theorem C2_segmenter (s : Str) (N : Nat)
    (h : (findStarts s 0).length = N) :
    (splitByPattern s).length = N ∧
    (∀ i a, (findStarts s 0)[i]? = some a →
       matchesDateAt (s.drop a) = true ∧
       (∀ b, (findStarts s 0)[i + 1]? = some b →
          (splitByPattern s)[i]? = some ((s.drop a).take (b - a))) ∧
       (i + 1 = N → (splitByPattern s)[i]? = some (s.drop a))) := by
  constructor
  · simp only [splitByPattern, List.length_map, segLimits_length,
      List.length_append, List.length_cons, List.length_nil, h]
    omega
  · intro i a hpsi
    have hi : i < (findStarts s 0).length := by
      by_contra hcon
      rw [List.getElem?_eq_none (by omega)] at hpsi
      exact absurd hpsi (by simp)
    have hbegin_i : ((findStarts s 0) ++ [s.length])[i]? = some a := by
      rw [List.getElem?_append, if_pos hi]
      exact hpsi
    refine ⟨?_, ?_, ?_⟩
    · have hmem : a ∈ findStarts s 0 := List.mem_iff_getElem?.mpr ⟨i, hpsi⟩
      obtain ⟨k, hk, hm⟩ := findStarts_mem s 0 a hmem
      have : a = k := by omega
      subst this
      exact hm
    · intro b hb
      have hbegin_i1 : ((findStarts s 0) ++ [s.length])[i + 1]? = some b := by
        have hi1 : i + 1 < (findStarts s 0).length := by
          by_contra hcon
          rw [List.getElem?_eq_none (by omega)] at hb
          exact absurd hb (by simp)
        rw [List.getElem?_append, if_pos hi1]
        exact hb
      have hseg := segLimits_getElem? _ i a b hbegin_i hbegin_i1
      simp only [splitByPattern, List.getElem?_map, hseg, Option.map_some]
      rfl
    · intro hlast
      have hilen : i + 1 = (findStarts s 0).length := by omega
      have hbegin_i1 : ((findStarts s 0) ++ [s.length])[i + 1]? =
          some s.length := by
        rw [List.getElem?_append, if_neg (by omega), hilen]
        simp
      have hseg := segLimits_getElem? _ i a s.length hbegin_i hbegin_i1
      have htake : (s.drop a).take (s.length - a) = s.drop a :=
        List.take_of_length_le (by rw [List.length_drop])
      simp only [splitByPattern, List.getElem?_map, hseg, Option.map_some]
      exact congrArg some htake

/-- Witness for C2 at an input with exactly two date matches: the segmenter
produces two records, the first running from match position 0 up to match
position 11, the second from position 11 to the end of the input. -/
theorem C2_witness :
    (splitByPattern ("01/02/18 a 03/04/18 b".toList)).length = 2 ∧
    (splitByPattern ("01/02/18 a 03/04/18 b".toList))[0]? =
      some ((("01/02/18 a 03/04/18 b".toList).drop 0).take (11 - 0)) ∧
    (splitByPattern ("01/02/18 a 03/04/18 b".toList))[1]? =
      some (("01/02/18 a 03/04/18 b".toList).drop 11) :=
  ⟨(C2_segmenter ("01/02/18 a 03/04/18 b".toList) 2 (by decide)).1,
   (((C2_segmenter ("01/02/18 a 03/04/18 b".toList) 2 (by decide)).2 0 0
      (by decide)).2.1 11 (by decide)),
   (((C2_segmenter ("01/02/18 a 03/04/18 b".toList) 2 (by decide)).2 1 11
      (by decide)).2.2 (by decide))⟩

theorem rideOfRow_eq_none_iff (r : List Str) :
    rideOfRow r = none ↔
      pdToDatetime (r.getD 0 []) = none ∨ fareCellOf (r.getD 2 []) = none := by
  unfold rideOfRow
  cases hd : pdToDatetime (r.getD 0 []) with
  | none => simp
  | some d =>
    cases hf : fareCellOf (r.getD 2 []) with
    | none => simp
    | some q => simp

/-- **C3** (corrected): counterexample.  A batch whose single record has a
perfectly parseable date but the fare token `"USD$abc"`: the text after
`'$'` is not numeric, so the final `pd.to_numeric` conversion raises and
aborts the whole batch — refuting the claim that every conversion other
than the date one never raises. -/
theorem C3_cex :
    asDf ("01/02/18\tJohn\tUSD$abc\tX\tSF\tVisa\n".toList) =
      .error .numErr ∧
    pdToDatetime ("01/02/18".toList) ≠ none ∧
    currencyOf ("USD$abc".toList) = some ("USD".toList) ∧
    toNumeric ("abc".toList) = none :=
  ⟨rfl, by decide, by decide, by decide⟩

/-- **C3** (amended).  For every parsed batch (of well-shaped rows): a
record whose date text cannot be parsed aborts the whole batch with a date
error (no partial success); when every date parses, the currency, canceled,
split-with and requested-by conversions never raise, and the only other
failure is the fare column — a fare cell whose text after `'$'` is not
numeric aborts the batch with a numeric error, and when every fare cell
converts the batch succeeds. -/
theorem C3_failure_semantics (content : Str) (rows : List (List Str))
    (hr : readFileAsListOfLists content = some rows)
    (hne : rows ≠ [])
    (hlen : rows.all (fun r => r.length == 9) = true) :
    ((∃ r ∈ rows, pdToDatetime (r.getD 0 []) = none) →
        asDf content = .error .dateErr) ∧
    ((∀ r ∈ rows, pdToDatetime (r.getD 0 []) ≠ none) →
      ((∃ r ∈ rows, fareCellOf (r.getD 2 []) = none) →
          asDf content = .error .numErr) ∧
      ((∀ r ∈ rows, fareCellOf (r.getD 2 []) ≠ none) →
          ∃ rides, asDf content = .ok rides)) := by
  have hguard : (rows.isEmpty || !(rows.all (fun r => r.length == 9)))
      = false := by
    cases rows with
    | nil => exact absurd rfl hne
    | cons r rs => simp only [List.isEmpty_cons, hlen, Bool.not_true,
        Bool.or_false]
  constructor
  · rintro ⟨r, hrmem, hrd⟩
    have hm : mapOpt (fun r => pdToDatetime (r.getD 0 [])) rows = none :=
      (mapOpt_eq_none_iff _ _).mpr ⟨r, hrmem, hrd⟩
    simp only [asDf, hr, hguard, Bool.false_eq_true, if_false, hm]
  · intro hdates
    obtain ⟨ds, hds⟩ := mapOpt_isSome _ rows hdates
    constructor
    · rintro ⟨r, hrmem, hrf⟩
      have hnone : rideOfRow r = none :=
        (rideOfRow_eq_none_iff r).mpr (Or.inr hrf)
      have hm2 : mapOpt rideOfRow rows = none :=
        (mapOpt_eq_none_iff _ _).mpr ⟨r, hrmem, hnone⟩
      simp only [asDf, hr, hguard, Bool.false_eq_true, if_false, hds, hm2]
    · intro hfares
      have hall : ∀ r ∈ rows, rideOfRow r ≠ none := by
        intro r hrmem hnone
        rcases (rideOfRow_eq_none_iff r).mp hnone with hD | hF
        · exact hdates r hrmem hD
        · exact hfares r hrmem hF
      obtain ⟨rides, hrides⟩ := mapOpt_isSome _ rows hall
      refine ⟨rides, ?_⟩
      simp only [asDf, hr, hguard, Bool.false_eq_true, if_false, hds, hrides]

/-- Witness for C3 at a one-record batch whose date and fare both convert:
the parse succeeds. -/
theorem C3_witness :
    ∃ rides,
      asDf ("05/06/18\tBea\t$3.50\tUberX\tLA\tVisa\n".toList) = .ok rides :=
  ((C3_failure_semantics ("05/06/18\tBea\t$3.50\tUberX\tLA\tVisa\n".toList)
      [["05/06/18", "Bea", "$3.50", "UberX", "LA", "Visa", "", "", ""].map
        String.toList]
      (by decide) (by decide) (by decide)).2
    (by decide)).2 (by decide)

/-- **C8** (confirmed).  Parsing the single-line input
`"01/02/18\tJohn Doe\t$10.00\tUberX\tSan Francisco\tVisa\n"` produces
exactly one Ride with date 2018-01-02, driver `"John Doe"`, fare `10.0`,
empty currency (the text before the `'$'` prefix), `canceled = false`, and
null `split_with` and `requested_by`. -/
theorem C8_scenario :
    asDf ("01/02/18\tJohn Doe\t$10.00\tUberX\tSan Francisco\tVisa\n".toList) =
      .ok [{ date := (2018, 1, 2), driver := "John Doe".toList,
             ride_type := "UberX".toList, city := "San Francisco".toList,
             payment := "Visa".toList, split_with := none,
             requested_by := none, canceled := false, currency := some [],
             fare := 10 }] := rfl

/-- **C10** (confirmed).  The extractor's substring scan examines every
element of the current row, including slot cells filled by earlier passes:
on this input the split-with pass stores the token
`"You split this fare with Canceled A"` in the split-with slot (cell 6) —
destroying the extra positional token in the process — and the later
canceled pass then finds its marker inside that stored slot text, deletes
the slot element and re-stores the text at the canceled slot (cell 8),
leaving the split-with slot empty.  The marker passes are therefore not
independent of one another. -/
theorem C10_pass_interference :
    applyPass allColumns splitPat ("split_with".toList)
        (tokenRows ("01/02/18\tD\t$1.00\tX\tSF\tVisa\tYou split this fare with Canceled A\textra\n".toList)) =
      some [(["01/02/18", "D", "$1.00", "X", "SF", "Visa",
              "You split this fare with Canceled A", "", "", ""].map
                String.toList)] ∧
    readFileAsListOfLists
        ("01/02/18\tD\t$1.00\tX\tSF\tVisa\tYou split this fare with Canceled A\textra\n".toList) =
      some [(["01/02/18", "D", "$1.00", "X", "SF", "Visa", "", "",
              "You split this fare with Canceled A"].map String.toList)] ∧
    hasSub cancelTxt ("You split this fare with Canceled A".toList) = true ∧
    ("You split this fare with Canceled A".toList ≠ cancelTxt) := by
  refine ⟨by decide, by decide, by decide, by decide⟩

end UberRiderParser
